import Mathlib

/-!
Verification of the `observable` event-system library (`observable/core.py`).

The registry `Observable._events` is a `defaultdict(list)` mapping event
names (strings) to ordered lists of handler references.  Handler references
are opaque callables compared by identity; we model them as natural numbers.
The mapping is modelled as an association list with insertion order
(Python dicts preserve insertion order); in every state reachable through
the API the keys are pairwise distinct, and all update operations below act
uniformly on duplicate keys so that no key-uniqueness side conditions are
needed in the theorems.

Python exceptions (`EventNotFound`, `HandlerNotFound`) are modelled by an
explicit error component: `off` returns the post-state *and* an optional
error, because the mutations `off` performs before raising persist on the
Python object.
-/

namespace Obs

/-- An event registry: event name ↦ ordered list of handler references. -/
abbrev Events := List (String × List Nat)

/-- `d.get(e, [])`: total lookup with default `[]`, never inserts.
Models `self._events.get(event, [])` (used by `get_handlers`,
`is_registered` and `trigger`). -/
def dictGet : Events → String → List Nat
  | [], _ => []
  | (k, v) :: rest, e => if k = e then v else dictGet rest e

/-- `event in self._events`: key-membership test, never inserts. -/
def hasEvent : Events → String → Bool
  | [], _ => false
  | (k, _) :: rest, e => if k = e then true else hasEvent rest e

/-- In-place replacement of the list stored under key `e`
(`self._events[event].remove/extend` mutate the stored list in place,
leaving the key where it is). -/
def setEvent : Events → String → List Nat → Events
  | [], _, _ => []
  | (k, v) :: rest, e, l => if k = e then (k, l) :: setEvent rest e l else (k, v) :: setEvent rest e l

/-- `self._events.pop(event)`: removes the entry for `e`. -/
def popEvent : Events → String → Events
  | [], _ => []
  | (k, v) :: rest, e => if k = e then popEvent rest e else (k, v) :: popEvent rest e

/-- `self._events[event].extend(handlers)`: the `defaultdict` subscript
creates an empty entry at the end of the mapping when `event` is absent,
then `extend` appends the handlers to the stored list. -/
def extendEvent (d : Events) (e : String) (hs : List Nat) : Events :=
  if hasEvent d e then setEvent d e (dictGet d e ++ hs) else d ++ [(e, hs)]

/-- `while callback in lst: lst.remove(callback)`: removes every
occurrence of `c` (the loop removes first occurrences until none is left). -/
def removeAll : List Nat → Nat → List Nat
  | [], _ => []
  | x :: xs, c => if x = c then removeAll xs c else x :: removeAll xs c

/-- The two exception kinds raised by `Observable.off`. -/
inductive RegError where
  | eventNotFound (event : String)
  | handlerNotFound (event : String) (handler : Nat)
  deriving DecidableEq, Repr

/-- `Observable.get_all_handlers`: builds a fresh dict whose values are
copies (`list(handlers)`) of the stored lists.  Returned as
(result, post-state): the registry itself is not touched. -/
def get_all_handlers (d : Events) : Events × Events :=
  (d.map (fun p => (p.1, p.2)), d)

/-- `Observable.get_handlers`: `list(self._events.get(event, []))`.
Returned as (result, post-state): uses `.get`, so no entry is created. -/
def get_handlers (d : Events) (e : String) : List Nat × Events :=
  (dictGet d e, d)

/-- `Observable.is_registered`: `handler in self._events.get(event, [])`.
Returned as (result, post-state): uses `.get`, so no entry is created. -/
def is_registered (d : Events) (e : String) (h : Nat) : Bool × Events :=
  (decide (h ∈ dictGet d e), d)

/-- The inner `_on_wrapper` of `Observable.on`: appends the handlers and
returns `handlers[0]` (`none` would be Python's `IndexError` on an empty
call, which no caller exercises). -/
def on_wrapper (d : Events) (e : String) (hs : List Nat) : Events × Option Nat :=
  (extendEvent d e hs, hs.head?)

/-- `Observable.on` (named `onEvent` here since `on` is reserved in Lean):
with handlers, applies `_on_wrapper` directly; called with only the event
name it returns `_on_wrapper` itself (curried form, modelled by result
`none` and an untouched registry — the registration happens only when
`on_wrapper` is applied later). -/
def onEvent (d : Events) (e : String) (hs : List Nat) : Events × Option Nat :=
  if hs = [] then (d, none) else on_wrapper d e hs

/-- The handler loop of `Observable.off`: for each handler, if it is not in
the event's list raise `HandlerNotFound` (keeping mutations already made),
otherwise remove every occurrence of it. -/
def offLoop (d : Events) (e : String) : List Nat → Events × Option RegError
  | [] => (d, none)
  | c :: rest =>
    if c ∈ dictGet d e then
      offLoop (setEvent d e (removeAll (dictGet d e) c)) e rest
    else (d, some (RegError.handlerNotFound e c))

/-- `Observable.off(event=None, *handlers)`.  `if not event:` is Python's
falsiness test: it holds for `None` *and* for the empty string, and clears
the whole mapping.  Otherwise an absent event raises `EventNotFound`; with
no handlers the entry is popped; with handlers the loop above runs. -/
def off (d : Events) (event : Option String) (hs : List Nat) : Events × Option RegError :=
  match event with
  | none => ([], none)
  | some e =>
    if e = "" then ([], none)
    else if hasEvent d e then
      if hs = [] then (popEvent d e, none)
      else offLoop d e hs
    else (d, some (RegError.eventNotFound e))

/-- Dispatch-time arguments: positional values and keyword values
(`*args, **kw`), both over opaque `Nat` payloads. -/
structure Args where
  pos : List Nat
  kw : List (String × Nat)
  deriving DecidableEq, Repr

/-- Observable program state during dispatch: the registry plus a trace of
handler invocations `(handler, arguments it received)`, in call order. -/
structure St where
  events : Events
  trace : List (Nat × Args)
  deriving DecidableEq, Repr

/-- Primitive steps a handler body may perform on the registry.
`invokeOp h` is a plain call `h(*args, **kw)` forwarding the current
arguments (used to model the body of the `once` wrapper). -/
inductive Op where
  | onOp (e : String) (hs : List Nat)
  | offOp (event : Option String) (hs : List Nat)
  | invokeOp (h : Nat)
  | trigOp (e : String) (a : Args)
  deriving DecidableEq, Repr

/-- A handler environment: the body of each handler reference, as a list
of primitive steps (an empty list is a plain handler with no effect on the
registry). -/
def Env := Nat → List Op

/-- Interpreter errors: a propagated registry exception, or fuel
exhaustion (Python has no fuel; every theorem below supplies enough). -/
inductive Err where
  | reg (er : RegError)
  | fuel
  deriving DecidableEq, Repr

/-- Runs a list of primitive steps.  Invoking a handler records
`(handler, args)` in the trace and then runs its body; a nested `trigger`
snapshots the current list for the event and invokes each element with the
new arguments (mirroring `Observable.trigger`).  A raised registry error
aborts the run, as a Python exception would. -/
def runOps (env : Env) (fuel : Nat) (ops : List Op) (a : Args) (st : St) : Except Err St :=
  match ops with
  | [] => .ok st
  | op :: rest =>
    match op with
    | .onOp e hs =>
      runOps env fuel rest a ⟨extendEvent st.events e hs, st.trace⟩
    | .offOp oe hs =>
      match off st.events oe hs with
      | (d, none) => runOps env fuel rest a ⟨d, st.trace⟩
      | (_, some er) => .error (.reg er)
    | .invokeOp h =>
      match fuel with
      | 0 => .error .fuel
      | f + 1 =>
        match runOps env f (env h) a ⟨st.events, st.trace ++ [(h, a)]⟩ with
        | .ok st' => runOps env (f + 1) rest a st'
        | .error er => .error er
    | .trigOp e a' =>
      match fuel with
      | 0 => .error .fuel
      | f + 1 =>
        match runOps env f ((dictGet st.events e).map Op.invokeOp) a' st with
        | .ok st' => runOps env (f + 1) rest a st'
        | .error er => .error er
  termination_by (fuel, ops)

/-- `Observable.trigger`: snapshots `list(self._events.get(event, []))`;
an empty snapshot returns `False` with no calls, otherwise every callback
in the snapshot is invoked with the given arguments and `True` is
returned. -/
def triggerF (env : Env) (fuel : Nat) (st : St) (e : String) (a : Args) : Except Err (Bool × St) :=
  let callbacks := dictGet st.events e
  if callbacks = [] then .ok (false, st)
  else
    match runOps env fuel (callbacks.map Op.invokeOp) a st with
    | .ok st' => .ok (true, st')
    | .error er => .error er

/-- Body of the `_wrapper` closure built by `Observable.once`: first
`self.off(event, _wrapper)` (self-unregistration), then call each wrapped
handler with the dispatch arguments. -/
def onceWrapperProg (e : String) (inners : List Nat) (w : Nat) : List Op :=
  Op.offOp (some e) [w] :: inners.map Op.invokeOp

/-- `Observable.once`: with handlers, registers a single fresh wrapper
closure (modelled by the fresh reference `w`) via `on` — so the value
returned is the wrapper; called with only the event name it returns the
lambda (curried form, result `none`, registry untouched). -/
def once (d : Events) (e : String) (hs : List Nat) (w : Nat) : Events × Option Nat :=
  if hs = [] then (d, none) else onEvent d e [w]

/-- The lambda returned by the curried `Observable.once(event)`:
`lambda x: self.on(event, _once_wrapper(x))` — registers the fresh wrapper
`w` (which wraps `x`) and returns `on`'s result, i.e. the wrapper. -/
def onceCurried (d : Events) (e : String) (_x : Nat) (w : Nat) : Events × Option Nat :=
  onEvent d e [w]

/-- Handler bodies that only register/unregister (no nested dispatch):
the shape of handler referred to by the snapshot property of `trigger`. -/
def regOnly : Op → Bool
  | .onOp _ _ => true
  | .offOp _ _ => true
  | .invokeOp _ => false
  | .trigOp _ _ => false

theorem dictGet_eq_nil {d : Events} {e : String} (h : hasEvent d e = false) :
    dictGet d e = [] := by
  induction d with
  | nil => rfl
  | cons p rest ih =>
    obtain ⟨k, v⟩ := p
    by_cases hk : k = e
    · simp [hasEvent, hk] at h
    · simp [hasEvent, hk] at h
      simp [dictGet, hk, ih h]

theorem hasEvent_of_mem_dictGet {d : Events} {e : String} {x : Nat}
    (h : x ∈ dictGet d e) : hasEvent d e = true := by
  by_contra hc
  rw [dictGet_eq_nil (Bool.eq_false_iff.mpr hc)] at h
  exact absurd h (List.not_mem_nil x)

theorem dictGet_setEvent_self (d : Events) (e : String) (l : List Nat)
    (h : hasEvent d e = true) : dictGet (setEvent d e l) e = l := by
  induction d with
  | nil => simp [hasEvent] at h
  | cons p rest ih =>
    obtain ⟨k, v⟩ := p
    by_cases hk : k = e
    · simp [setEvent, dictGet, hk]
    · simp [hasEvent, hk] at h
      simp [setEvent, dictGet, hk, ih h]

theorem hasEvent_popEvent_self (d : Events) (e : String) :
    hasEvent (popEvent d e) e = false := by
  induction d with
  | nil => rfl
  | cons p rest ih =>
    obtain ⟨k, v⟩ := p
    by_cases hk : k = e
    · simp [popEvent, hk, ih]
    · simp [popEvent, hk, hasEvent, ih]

theorem mem_removeAll {l : List Nat} {c x : Nat} :
    x ∈ removeAll l c ↔ x ∈ l ∧ x ≠ c := by
  induction l with
  | nil => simp [removeAll]
  | cons y ys ih =>
    by_cases hy : y = c
    · subst hy
      simp [removeAll, ih]
      intro h
      exact fun hx => absurd hx h
    · simp [removeAll, hy, ih, List.mem_cons]
      constructor
      · rintro (rfl | ⟨hm, hne⟩)
        · exact ⟨Or.inl rfl, hy⟩
        · exact ⟨Or.inr hm, hne⟩
      · rintro ⟨rfl | hm, hne⟩
        · exact Or.inl rfl
        · exact Or.inr ⟨hm, hne⟩

theorem not_mem_removeAll_self (l : List Nat) (c : Nat) : c ∉ removeAll l c := by
  intro h
  exact (mem_removeAll.mp h).2 rfl

theorem length_removeAll_lt {l : List Nat} {c : Nat} (h : c ∈ l) :
    (removeAll l c).length < l.length := by
  induction l with
  | nil => cases h
  | cons y ys ih =>
    by_cases hy : y = c
    · subst hy
      have hle : (removeAll ys y).length ≤ ys.length := by
        clear h ih
        induction ys with
        | nil => simp [removeAll]
        | cons z zs ihz =>
          by_cases hz : z = y
          · simp [removeAll, hz]
            omega
          · simp [removeAll, hz]
            omega
      simp [removeAll]
      omega
    · rcases List.mem_cons.mp h with rfl | hm
      · exact absurd rfl hy
      · simp [removeAll, hy]
        exact ih hm

theorem removeAll_ne_of_mem {l : List Nat} {c : Nat} (h : c ∈ l) :
    removeAll l c ≠ l := by
  intro heq
  have := length_removeAll_lt h
  rw [heq] at this
  omega

theorem dictGet_append_right {d d2 : Events} {e : String}
    (h : hasEvent d e = false) : dictGet (d ++ d2) e = dictGet d2 e := by
  induction d with
  | nil => rfl
  | cons p rest ih =>
    obtain ⟨k, v⟩ := p
    by_cases hk : k = e
    · simp [hasEvent, hk] at h
    · simp [hasEvent, hk] at h
      simp [dictGet, hk, ih h]

theorem dictGet_extendEvent_self (d : Events) (e : String) (hs : List Nat) :
    dictGet (extendEvent d e hs) e = dictGet d e ++ hs := by
  by_cases hp : hasEvent d e
  · simp [extendEvent, hp, dictGet_setEvent_self _ _ _ hp]
  · have hp' : hasEvent d e = false := Bool.eq_false_iff.mpr hp
    simp [extendEvent, hp', dictGet_append_right hp', dictGet_eq_nil hp', dictGet]

@[simp]
theorem runOps_nil (env : Env) (fuel : Nat) (a : Args) (st : St) :
    runOps env fuel [] a st = .ok st := by
  rw [runOps]

@[simp]
theorem runOps_on (env : Env) (fuel : Nat) (e : String) (hs : List Nat)
    (rest : List Op) (a : Args) (st : St) :
    runOps env fuel (Op.onOp e hs :: rest) a st
      = runOps env fuel rest a ⟨extendEvent st.events e hs, st.trace⟩ := by
  rw [runOps]

@[simp]
theorem runOps_off (env : Env) (fuel : Nat) (oe : Option String) (hs : List Nat)
    (rest : List Op) (a : Args) (st : St) :
    runOps env fuel (Op.offOp oe hs :: rest) a st
      = match off st.events oe hs with
        | (d, none) => runOps env fuel rest a ⟨d, st.trace⟩
        | (_, some er) => .error (.reg er) := by
  rw [runOps]

@[simp]
theorem runOps_invoke_zero (env : Env) (h : Nat) (rest : List Op) (a : Args) (st : St) :
    runOps env 0 (Op.invokeOp h :: rest) a st = .error .fuel := by
  rw [runOps]

@[simp]
theorem runOps_invoke_succ (env : Env) (f : Nat) (h : Nat) (rest : List Op) (a : Args) (st : St) :
    runOps env (f + 1) (Op.invokeOp h :: rest) a st
      = match runOps env f (env h) a ⟨st.events, st.trace ++ [(h, a)]⟩ with
        | .ok st' => runOps env (f + 1) rest a st'
        | .error er => .error er := by
  rw [runOps]

@[simp]
theorem runOps_trig_zero (env : Env) (e : String) (a' : Args) (rest : List Op) (a : Args) (st : St) :
    runOps env 0 (Op.trigOp e a' :: rest) a st = .error .fuel := by
  rw [runOps]

@[simp]
theorem runOps_trig_succ (env : Env) (f : Nat) (e : String) (a' : Args) (rest : List Op) (a : Args) (st : St) :
    runOps env (f + 1) (Op.trigOp e a' :: rest) a st
      = match runOps env f ((dictGet st.events e).map Op.invokeOp) a' st with
        | .ok st' => runOps env (f + 1) rest a st'
        | .error er => .error er := by
  rw [runOps]

/-- C1.  Registering `h1` then `h2` for `e` on a fresh registry and then
dispatching `e` (with plain handlers, whose bodies do nothing) invokes
`h1` first and `h2` second, each exactly once, with the dispatch
arguments, and dispatch returns `true`. -/
theorem spec_c1 (e : String) (h1 h2 : Nat) (a : Args) (env : Env) (f : Nat)
    (hb1 : env h1 = []) (hb2 : env h2 = []) :
    triggerF env (f + 1) ⟨(onEvent (onEvent [] e [h1]).1 e [h2]).1, []⟩ e a
      = .ok (true, ⟨[(e, [h1, h2])], [(h1, a), (h2, a)]⟩) := by
  have hreg : (onEvent (onEvent [] e [h1]).1 e [h2]).1 = [(e, [h1, h2])] := by
    simp [onEvent, on_wrapper, extendEvent, hasEvent, dictGet, setEvent]
  rw [hreg]
  simp [triggerF, dictGet, hb1, hb2]

/-- Witness for C1 at concrete inputs. -/
theorem spec_c1_witness :
    triggerF (fun _ => []) 1 ⟨(onEvent (onEvent [] "x" [1]).1 "x" [2]).1, []⟩ "x" ⟨[3], [("k", 4)]⟩
      = .ok (true, ⟨[("x", [1, 2])], [(1, ⟨[3], [("k", 4)]⟩), (2, ⟨[3], [("k", 4)]⟩)]⟩) :=
  spec_c1 "x" 1 2 ⟨[3], [("k", 4)]⟩ (fun _ => []) 0 rfl rfl

/-- Running handler bodies made only of register/unregister steps never
touches the invocation trace (only `invokeOp` records an invocation). -/
theorem runOps_regOnly_trace (env : Env) (a : Args) :
    ∀ (ops : List Op), (∀ op ∈ ops, regOnly op = true) →
    ∀ (fuel : Nat) (st st' : St), runOps env fuel ops a st = .ok st' → st'.trace = st.trace := by
  intro ops
  induction ops with
  | nil =>
    intro _ fuel st st' h
    simp at h
    rw [← h]
  | cons op rest ih =>
    intro hall fuel st st' h
    have hop := hall op (List.mem_cons_self _ _)
    have hrest : ∀ op' ∈ rest, regOnly op' = true :=
      fun op' hm => hall op' (List.mem_cons_of_mem _ hm)
    cases op with
    | onOp e hs =>
      rw [runOps_on] at h
      exact ih hrest fuel ⟨extendEvent st.events e hs, st.trace⟩ st' h
    | offOp oe hs =>
      rw [runOps_off] at h
      rcases hoff : off st.events oe hs with ⟨d, er⟩
      rw [hoff] at h
      cases er with
      | none => exact ih hrest fuel ⟨d, st.trace⟩ st' h
      | some er => cases h
    | invokeOp hh => simp [regOnly] at hop
    | trigOp e a' => simp [regOnly] at hop

/-- Invoking a list of handlers whose bodies only register/unregister
appends exactly one trace entry `(handler, args)` per handler, in order,
no matter what the bodies do to the registry. -/
theorem runOps_invokes_trace (env : Env) (a : Args) :
    ∀ (cs : List Nat), (∀ h ∈ cs, ∀ op ∈ env h, regOnly op = true) →
    ∀ (fuel : Nat) (st st' : St),
      runOps env fuel (cs.map Op.invokeOp) a st = .ok st' →
      st'.trace = st.trace ++ cs.map (fun h => (h, a)) := by
  intro cs
  induction cs with
  | nil =>
    intro _ fuel st st' h
    simp at h
    simp [← h]
  | cons c cs' ih =>
    intro hall fuel st st' h
    cases fuel with
    | zero =>
      rw [List.map_cons, runOps_invoke_zero] at h
      cases h
    | succ f =>
      rw [List.map_cons, runOps_invoke_succ] at h
      rcases hinner : runOps env f (env c) a ⟨st.events, st.trace ++ [(c, a)]⟩ with er | st1
      · rw [hinner] at h
        cases h
      · rw [hinner] at h
        have h1 : st1.trace = st.trace ++ [(c, a)] :=
          runOps_regOnly_trace env a (env c) (hall c (List.mem_cons_self _ _)) f _ st1 hinner
        have h2 := ih (fun hh hm op hop => hall hh (List.mem_cons_of_mem _ hm) op hop) (f + 1) st1 st' h
        rw [h2, h1]
        simp

/-- C2.  First part: whenever an event has a non-empty handler sequence
and the dispatch completes, it has invoked exactly the snapshot of that
sequence captured before any handler runs, in order, passing each handler
the dispatch arguments unchanged — regardless of the registrations and
unregistrations the handlers perform meanwhile — and returns `true`.
Second part: a handler `h1` that registers `h2` for the same event during
dispatch does not get `h2` invoked in the same pass, but the next dispatch
of the event does invoke `h2`. -/
theorem spec_c2 :
    (∀ (env : Env) (fuel : Nat) (st : St) (e : String) (a : Args) (b : Bool) (st' : St),
       dictGet st.events e ≠ [] →
       (∀ h ∈ dictGet st.events e, ∀ op ∈ env h, regOnly op = true) →
       triggerF env fuel st e a = .ok (b, st') →
       b = true ∧ st'.trace = st.trace ++ (dictGet st.events e).map (fun h => (h, a)))
    ∧
    (∀ (e : String) (h1 h2 : Nat) (a a' : Args) (env : Env) (f : Nat),
       env h1 = [Op.onOp e [h2]] → env h2 = [] →
       triggerF env (f + 1) ⟨[(e, [h1])], []⟩ e a
         = .ok (true, ⟨[(e, [h1, h2])], [(h1, a)]⟩)
       ∧ triggerF env (f + 1) ⟨[(e, [h1, h2])], [(h1, a)]⟩ e a'
         = .ok (true, ⟨[(e, [h1, h2, h2])], [(h1, a), (h1, a'), (h2, a')]⟩)) := by
  constructor
  · intro env fuel st e a b st' hne hreg hrun
    rw [triggerF] at hrun
    simp only [hne, if_neg, ite_false] at hrun
    rcases hr : runOps env fuel ((dictGet st.events e).map Op.invokeOp) a st with er | st1
    · rw [hr] at hrun
      cases hrun
    · rw [hr] at hrun
      simp only [Except.ok.injEq, Prod.mk.injEq] at hrun
      obtain ⟨hb, hst⟩ := hrun
      subst hb
      subst hst
      exact ⟨rfl, runOps_invokes_trace env a _ hreg fuel st st1 hr⟩
  · intro e h1 h2 a a' env f hb1 hb2
    constructor
    · simp [triggerF, dictGet, hb1, hb2, extendEvent, hasEvent, setEvent]
    · simp [triggerF, dictGet, hb1, hb2, extendEvent, hasEvent, setEvent]

/-- Witness for C2: both parts applied at concrete inputs (a handler that
registers another handler for the same event during dispatch). -/
theorem spec_c2_witness :
    (true = true
     ∧ (⟨[("x", [1, 2])], [(1, ⟨[5], []⟩)]⟩ : St).trace
         = (⟨[("x", [1])], []⟩ : St).trace
             ++ (dictGet [("x", [1])] "x").map (fun h => (h, (⟨[5], []⟩ : Args))))
    ∧ (triggerF (fun n => if n = 1 then [Op.onOp "x" [2]] else []) (1 + 1)
           ⟨[("x", [1])], []⟩ "x" ⟨[5], []⟩
         = .ok (true, ⟨[("x", [1, 2])], [(1, ⟨[5], []⟩)]⟩)
       ∧ triggerF (fun n => if n = 1 then [Op.onOp "x" [2]] else []) (1 + 1)
           ⟨[("x", [1, 2])], [(1, ⟨[5], []⟩)]⟩ "x" ⟨[6], []⟩
         = .ok (true, ⟨[("x", [1, 2, 2])], [(1, ⟨[5], []⟩), (1, ⟨[6], []⟩), (2, ⟨[6], []⟩)]⟩)) :=
  ⟨spec_c2.1 (fun n => if n = 1 then [Op.onOp "x" [2]] else []) (1 + 1) ⟨[("x", [1])], []⟩ "x"
      ⟨[5], []⟩ true ⟨[("x", [1, 2])], [(1, ⟨[5], []⟩)]⟩ (by decide) (by decide)
      (by simp [triggerF, dictGet, extendEvent, hasEvent, setEvent]),
   spec_c2.2 "x" 1 2 ⟨[5], []⟩ ⟨[6], []⟩ (fun n => if n = 1 then [Op.onOp "x" [2]] else []) 1
      rfl rfl⟩

/-- C3 counterexample: the empty string is an event name that was never
registered on a fresh registry, yet `off("")` does not raise
`EventNotFound` — Python's `if not event:` treats `""` as the clear-all
form and returns normally. -/
theorem spec_c3_counterexample :
    hasEvent ([] : Events) "" = false ∧ off ([] : Events) (some "") [] = ([], none) :=
  ⟨rfl, rfl⟩

/-- C3 amended: for every NON-EMPTY event name `e` never registered and
every handler `h`, dispatching `e` returns `false` and changes nothing
(in particular invokes no handler: the trace is untouched), `off(e)`
raises `EventNotFound`, and `is_registered(e, h)` is `false`. -/
theorem spec_c3_amended (d : Events) (e : String) (h : Nat) (env : Env) (fuel : Nat)
    (a : Args) (t : List (Nat × Args)) (he : e ≠ "") (habs : hasEvent d e = false) :
    triggerF env fuel ⟨d, t⟩ e a = .ok (false, ⟨d, t⟩)
    ∧ off d (some e) [] = (d, some (RegError.eventNotFound e))
    ∧ (is_registered d e h).1 = false := by
  have hnil : dictGet d e = [] := dictGet_eq_nil habs
  refine ⟨?_, ?_, ?_⟩
  · simp [triggerF, hnil]
  · simp [off, he, habs]
  · simp [is_registered, hnil]

/-- Witness for the amended C3 at concrete inputs. -/
theorem spec_c3_witness :
    triggerF (fun _ => []) 0 ⟨[("a", [1])], []⟩ "b" ⟨[], []⟩ = .ok (false, ⟨[("a", [1])], []⟩)
    ∧ off [("a", [1])] (some "b") [] = ([("a", [1])], some (RegError.eventNotFound "b"))
    ∧ (is_registered [("a", [1])] "b" 7).1 = false :=
  spec_c3_amended [("a", [1])] "b" 7 (fun _ => []) 0 ⟨[], []⟩ [] (by decide) (by decide)

/-- C4.  After `once(e, h)` registers the one-shot wrapper `w`, the first
dispatch of `e` invokes `w` and then `h` exactly once each (the trace is
exactly `[(w, a), (h, a)]` even though `h`'s body re-triggers `e`
synchronously: the wrapper unregistered itself *before* invoking `h`, so
the nested dispatch finds an empty sequence and does not re-enter the
wrapper), `e`'s sequence afterwards no longer contains the wrapper, and a
second dispatch of `e` returns `false`. -/
theorem spec_c4 (e : String) (h w : Nat) (a a2 aR : Args) (env : Env) (f1 f2 : Nat)
    (hw : env w = onceWrapperProg e [h] w)
    (hh : env h = [Op.trigOp e aR]) :
    ∃ st1 : St,
      triggerF env (f1 + 1 + 1 + 1) ⟨(once [] e [h] w).1, []⟩ e a = .ok (true, st1)
      ∧ st1.trace = [(w, a), (h, a)]
      ∧ dictGet st1.events e = []
      ∧ w ∉ dictGet st1.events e
      ∧ triggerF env f2 st1 e a2 = .ok (false, st1) := by
  by_cases he : e = ""
  · subst he
    refine ⟨⟨[], [(w, a), (h, a)]⟩, ?_, rfl, rfl, ?_, ?_⟩
    · simp [once, onEvent, on_wrapper, extendEvent, hasEvent, dictGet, setEvent, triggerF,
        hw, hh, onceWrapperProg, off]
    · simp [dictGet]
    · simp [triggerF, dictGet]
  · refine ⟨⟨[(e, [])], [(w, a), (h, a)]⟩, ?_, rfl, ?_, ?_, ?_⟩
    · simp [once, onEvent, on_wrapper, extendEvent, hasEvent, dictGet, setEvent, triggerF,
        hw, hh, onceWrapperProg, off, he, offLoop, removeAll]
    · simp [dictGet]
    · simp [dictGet]
    · simp [triggerF, dictGet]

/-- Witness for C4 at concrete inputs: wrapper `1` wraps handler `0`,
whose body re-triggers the same event. -/
theorem spec_c4_witness :
    ∃ st1 : St,
      triggerF (fun n => if n = 1 then onceWrapperProg "ev" [0] 1 else [Op.trigOp "ev" ⟨[9], []⟩])
          (0 + 1 + 1 + 1) ⟨(once [] "ev" [0] 1).1, []⟩ "ev" ⟨[7], []⟩ = .ok (true, st1)
      ∧ st1.trace = [(1, ⟨[7], []⟩), (0, ⟨[7], []⟩)]
      ∧ dictGet st1.events "ev" = []
      ∧ 1 ∉ dictGet st1.events "ev"
      ∧ triggerF (fun n => if n = 1 then onceWrapperProg "ev" [0] 1 else [Op.trigOp "ev" ⟨[9], []⟩])
          5 st1 "ev" ⟨[8], []⟩ = .ok (false, st1) :=
  spec_c4 "ev" 0 1 ⟨[7], []⟩ ⟨[8], []⟩ ⟨[9], []⟩
    (fun n => if n = 1 then onceWrapperProg "ev" [0] 1 else [Op.trigOp "ev" ⟨[9], []⟩])
    0 5 (by decide) (by decide)

/-- C5.  If `h` is registered for `e` at least twice, `off(e, [h])`
succeeds (no exception) and removes every occurrence of `h` — afterwards
`h` is no longer anywhere in `e`'s sequence (so not just the first
occurrence was removed) and `is_registered(e, h)` is `false`. -/
theorem spec_c5 (d : Events) (e : String) (h : Nat)
    (hcount : 2 ≤ (dictGet d e).count h) :
    (off d (some e) [h]).2 = none
    ∧ h ∉ dictGet (off d (some e) [h]).1 e
    ∧ (is_registered (off d (some e) [h]).1 e h).1 = false := by
  have hmem : h ∈ dictGet d e := by
    have : 0 < (dictGet d e).count h := by omega
    exact List.count_pos_iff.mp this
  by_cases he : e = ""
  · subst he
    simp [off, is_registered, dictGet]
  · have hev := hasEvent_of_mem_dictGet hmem
    have hoff : off d (some e) [h] = (setEvent d e (removeAll (dictGet d e) h), none) := by
      simp [off, he, hev, offLoop, hmem]
    rw [hoff]
    have hset : dictGet (setEvent d e (removeAll (dictGet d e) h)) e = removeAll (dictGet d e) h :=
      dictGet_setEvent_self d e _ hev
    simp [is_registered, hset, not_mem_removeAll_self]

/-- Witness for C5: handler `1` registered twice for `"a"`. -/
theorem spec_c5_witness :
    (off [("a", [1, 2, 1])] (some "a") [1]).2 = none
    ∧ 1 ∉ dictGet (off [("a", [1, 2, 1])] (some "a") [1]).1 "a"
    ∧ (is_registered (off [("a", [1, 2, 1])] (some "a") [1]).1 "a" 1).1 = false :=
  spec_c5 [("a", [1, 2, 1])] "a" 1 (by decide)

/-- C6 counterexample: for the present event name `""`, `off("")` clears
the whole mapping (Python falsiness) and a subsequent `off("")` does NOT
raise `EventNotFound` — it returns normally again. -/
theorem spec_c6_counterexample :
    off (extendEvent [] "" [5]) (some "") [] = ([], none)
    ∧ (off (off (extendEvent [] "" [5]) (some "") []).1 (some "") []).2 = none :=
  ⟨rfl, rfl⟩

/-- C6 amended: for every NON-EMPTY event name `e` present in the mapping
(whether its sequence is empty or not), `off(e)` succeeds and removes the
entire entry; afterwards the entry is gone and a subsequent `off(e)`
raises `EventNotFound`; and `off(e)` on a registry where `e` was never
registered raises `EventNotFound`. -/
theorem spec_c6_amended (d d2 : Events) (e : String)
    (he : e ≠ "") (hp : hasEvent d e = true) (hnr : hasEvent d2 e = false) :
    off d (some e) [] = (popEvent d e, none)
    ∧ hasEvent (popEvent d e) e = false
    ∧ off (popEvent d e) (some e) [] = (popEvent d e, some (RegError.eventNotFound e))
    ∧ off d2 (some e) [] = (d2, some (RegError.eventNotFound e)) := by
  refine ⟨?_, hasEvent_popEvent_self d e, ?_, ?_⟩
  · simp [off, he, hp]
  · simp [off, he, hasEvent_popEvent_self]
  · simp [off, he, hnr]

/-- Witness for the amended C6: a present-but-empty event succeeds, the
repeat call and the never-registered case raise `EventNotFound`. -/
theorem spec_c6_witness :
    off [("a", [])] (some "a") [] = (popEvent [("a", [])] "a", none)
    ∧ hasEvent (popEvent [("a", [])] "a") "a" = false
    ∧ off (popEvent [("a", [])] "a") (some "a") []
        = (popEvent [("a", [])] "a", some (RegError.eventNotFound "a"))
    ∧ off [] (some "a") [] = ([], some (RegError.eventNotFound "a")) :=
  spec_c6_amended [("a", [])] [] "a" (by decide) (by decide) (by decide)

/-- C7 counterexample: for the present event name `""` and the
unregistered handler `2`, `off("", 2)` raises nothing and does not leave
the sequence unchanged — it clears the whole mapping (Python falsiness of
`""`). -/
theorem spec_c7_counterexample :
    off (extendEvent [] "" [1]) (some "") [2] = ([], none) := rfl

/-- C7 amended: for every NON-EMPTY event name `e` present in the mapping
and every handler `h` not in `e`'s sequence, `off(e, h)` raises
`HandlerNotFound` carrying the event name and the handler, and leaves the
registry (hence `e`'s sequence) unchanged. -/
theorem spec_c7_amended (d : Events) (e : String) (h : Nat)
    (he : e ≠ "") (hp : hasEvent d e = true) (hnm : h ∉ dictGet d e) :
    off d (some e) [h] = (d, some (RegError.handlerNotFound e h)) := by
  simp [off, he, hp, offLoop, hnm]

/-- Witness for the amended C7 at concrete inputs. -/
theorem spec_c7_witness :
    off [("a", [1])] (some "a") [2] = ([("a", [1])], some (RegError.handlerNotFound "a" 2)) :=
  spec_c7_amended [("a", [1])] "a" 2 (by decide) (by decide) (by decide)

/-- C8 counterexample: the curried `once("e")` applied to handler `0`
performs the registration but returns the fresh one-shot wrapper (modelled
by the fresh reference `1`, a new closure distinct from every existing
callable), NOT the supplied handler `0`. -/
theorem spec_c8_counterexample :
    (onceCurried [] "e" 0 1).2 ≠ some 0
    ∧ (onceCurried [] "e" 0 1).2 = some 1
    ∧ (onceCurried [] "e" 0 1).1 = [("e", [1])] := by
  refine ⟨?_, rfl, rfl⟩
  decide

/-- C8 amended: `on(e, h1, ..., hn)` returns `h1`; the curried `on(e)`
leaves the registry untouched and returns `_on_wrapper`, which when later
applied appends the handlers and returns the first one; the curried
`once(e)` likewise defers registration, but applying it registers the
fresh one-shot wrapper and returns that wrapper — not the supplied
handler (and the non-curried `once` also returns the wrapper). -/
theorem spec_c8_amended (d : Events) (e : String) (h1 : Nat) (rest : List Nat) (x w : Nat) :
    onEvent d e (h1 :: rest) = (extendEvent d e (h1 :: rest), some h1)
    ∧ onEvent d e [] = (d, none)
    ∧ on_wrapper d e (h1 :: rest) = (extendEvent d e (h1 :: rest), some h1)
    ∧ once d e [] w = (d, none)
    ∧ onceCurried d e x w = (extendEvent d e [w], some w)
    ∧ once d e (h1 :: rest) w = (extendEvent d e [w], some w) := by
  refine ⟨?_, rfl, rfl, rfl, ?_, ?_⟩ <;>
    simp [onEvent, on_wrapper, once, onceCurried]

/-- C9.  The read-only operations return the registry unchanged —
`get_all_handlers` (whose returned snapshot equals the current content),
`get_handlers` and `is_registered` all use non-creating lookups — and
dispatching a never-registered event returns `false` leaving the state
(registry and trace) exactly as it was: despite the `defaultdict`, no
entry is created for the queried name.  (Returned lists are fresh copies
by `list(...)` in the source; in this value-level model aliasing does not
exist, so that clause holds by construction.) -/
theorem spec_c9 (d : Events) (e : String) (h : Nat) (env : Env) (fuel : Nat)
    (a : Args) (t : List (Nat × Args)) (habs : hasEvent d e = false) :
    (get_all_handlers d).2 = d
    ∧ (get_all_handlers d).1 = d
    ∧ (get_handlers d e).2 = d
    ∧ (is_registered d e h).2 = d
    ∧ triggerF env fuel ⟨d, t⟩ e a = .ok (false, ⟨d, t⟩) := by
  refine ⟨rfl, ?_, rfl, rfl, ?_⟩
  · simp [get_all_handlers]
  · simp [triggerF, dictGet_eq_nil habs]

/-- Witness for C9 at concrete inputs. -/
theorem spec_c9_witness :
    (get_all_handlers [("a", [1])]).2 = [("a", [1])]
    ∧ (get_all_handlers [("a", [1])]).1 = [("a", [1])]
    ∧ (get_handlers [("a", [1])] "b").2 = [("a", [1])]
    ∧ (is_registered [("a", [1])] "b" 7).2 = [("a", [1])]
    ∧ triggerF (fun _ => []) 0 ⟨[("a", [1])], []⟩ "b" ⟨[], []⟩ = .ok (false, ⟨[("a", [1])], []⟩) :=
  spec_c9 [("a", [1])] "b" 7 (fun _ => []) 0 ⟨[], []⟩ [] (by decide)

/-- C10 counterexample: for event name `""` with handler `1` registered
and `2` not, `off("", 1, 2)` raises no `HandlerNotFound` at all — the
falsy event name makes it clear the whole mapping instead. -/
theorem spec_c10_counterexample :
    off (extendEvent [] "" [1]) (some "") [1, 2] = ([], none) := rfl

/-- C10 amended: for every NON-EMPTY event name `e` with `h1` registered
and `h2` not, `off(e, h1, h2)` raises `HandlerNotFound` for `h2`, but the
removal of `h1` performed before the failure persists: the resulting
sequence is the old one with every `h1` removed, which differs from the
state before the call. -/
theorem spec_c10_amended (d : Events) (e : String) (h1 h2 : Nat)
    (he : e ≠ "") (hm : h1 ∈ dictGet d e) (hnm : h2 ∉ dictGet d e) :
    off d (some e) [h1, h2]
      = (setEvent d e (removeAll (dictGet d e) h1), some (RegError.handlerNotFound e h2))
    ∧ h1 ∉ dictGet (setEvent d e (removeAll (dictGet d e) h1)) e
    ∧ dictGet (setEvent d e (removeAll (dictGet d e) h1)) e ≠ dictGet d e := by
  have hev := hasEvent_of_mem_dictGet hm
  have hset := dictGet_setEvent_self d e (removeAll (dictGet d e) h1) hev
  have hnm2 : h2 ∉ removeAll (dictGet d e) h1 := fun hc => hnm (mem_removeAll.mp hc).1
  refine ⟨?_, ?_, ?_⟩
  · simp [off, he, hev, offLoop, hm, hset, hnm2]
  · rw [hset]
    exact not_mem_removeAll_self _ _
  · rw [hset]
    exact removeAll_ne_of_mem hm

/-- Witness for the amended C10: `1` registered twice, `2` missing. -/
theorem spec_c10_witness :
    off [("a", [1, 3, 1])] (some "a") [1, 2]
      = (setEvent [("a", [1, 3, 1])] "a" (removeAll (dictGet [("a", [1, 3, 1])] "a") 1),
         some (RegError.handlerNotFound "a" 2))
    ∧ 1 ∉ dictGet (setEvent [("a", [1, 3, 1])] "a" (removeAll (dictGet [("a", [1, 3, 1])] "a") 1)) "a"
    ∧ dictGet (setEvent [("a", [1, 3, 1])] "a" (removeAll (dictGet [("a", [1, 3, 1])] "a") 1)) "a"
        ≠ dictGet [("a", [1, 3, 1])] "a" :=
  spec_c10_amended [("a", [1, 3, 1])] "a" 1 2 (by decide) (by decide) (by decide)

end Obs
